import Mathlib

/-
Verification of the event-stream demultiplexer of captain_cmd
(src/chat/chat.py): `process_agent` and the validation gate of `ChatStream`.

The python code is shallowly embedded: each raw stream item is a
`(namespace, stream_mode, chunk)` triple; `process_agent` folds over the
item list, threading the tracker state (`active_subagents`,
`state["current_subagent"]`) and the list of messages injected back through
`agent.aupdate_state`, and emitting a list of typed output events.
Exceptions raised inside the per-item `try` block are modelled as an
`Option String` component that aborts the remainder of the item and is
converted to an `error` event, exactly as the inner `except` clause does
(the traceback text appended by the python handler is elided from the
modelled message).
-/

namespace CaptainCmd

/-- A tool-call arguments object (`tc.get('args', {})`): a string-valued
JSON object modelled as an association list; the most recent binding of a
key is found first. -/
abbrev Args := List (String × String)

/-- One entry `tc` of `msg.tool_calls` (src/chat/chat.py lines 289-325).
Each key may be absent from the dictionary, modelled by `none`. -/
structure ToolCallEntry where
  name : Option String
  args : Option Args
  id : Option String
deriving DecidableEq, Repr

/-- The dictionary shape inspected by the `read_image` unwrapping
(src/chat/chat.py lines 364-374): the truthiness of the `__vlm_image__`
key and the value of the `content` key. -/
structure VlmDict where
  vlmImage : Bool
  content : Option String
deriving DecidableEq, Repr

/-- A tool-message `content` value: either a string (possibly JSON text)
or a dictionary (src/chat/chat.py lines 361-374). -/
inductive MsgContent where
  | str (s : String)
  | dict (d : VlmDict)
deriving DecidableEq, Repr

/-- A message inside an `updates`-mode state delta (src/chat/chat.py lines
286-355): a request-style message carrying `tool_calls`, a `ToolMessage`
carrying a tool result (`name` read with `getattr(msg, 'name', '')`), or
any other message, which the loop ignores. -/
inductive UpdMsg where
  | request (toolCalls : List ToolCallEntry)
  | toolMessage (name : Option String) (content : MsgContent) (toolCallId : String)
  | plain
deriving DecidableEq, Repr

/-- A node's state delta: `node_data.get("messages", [])`; an absent
`messages` key behaves as the empty list. -/
structure NodeUpd where
  messages : List UpdMsg
deriving DecidableEq, Repr

/-- One entry of `token.content_blocks`: a dictionary read with
`block.get("type")`, `block.get('text', '')`, `block.get('reasoning', '')`. -/
structure ContentBlock where
  type : Option String
  text : Option String
  reasoning : Option String
deriving DecidableEq, Repr

/-- A streamed token: its `content_blocks` list (an absent or empty
attribute both behave as "no blocks"). -/
structure Token where
  contentBlocks : List ContentBlock
deriving DecidableEq, Repr

/-- Token metadata: `metadata.get("langgraph_node", "")`. -/
structure TokenMeta where
  langgraphNode : Option String
deriving DecidableEq, Repr

/-- The chunk of a `messages`-mode item: `token, metadata = chunk`, where
either component may be `None`. -/
structure TokenChunk where
  token : Option Token
  metadata : Option TokenMeta
deriving DecidableEq, Repr

/-- The mode-specific chunk of a raw stream item: `messages` (token mode)
or `updates` (a possibly-`None` dictionary node name → node delta). -/
inductive StreamChunk where
  | messages (c : TokenChunk)
  | updates (c : Option (List (String × Option NodeUpd)))
deriving DecidableEq, Repr

/-- One raw stream item `(namespace, stream_mode, chunk)` produced by
`agent.astream(..., stream_mode=["updates", "messages"], subgraphs=True)`;
`ns` is the namespace tuple, empty for the root agent. -/
structure RawItem where
  ns : List String
  chunk : StreamChunk
deriving DecidableEq, Repr

/-- The typed output events yielded by `process_agent`, one constructor per
`type` discriminator. -/
inductive Event where
  | modelAnswer (content : String)
  | modelThinking (content : String)
  | toolCall (name : String) (args : Args) (id : Option String)
  | toolResult (content : MsgContent) (id : String)
  | subAgentStart (subagent : String) (task : String) (id : String)
  | subAgentAnswer (content : String) (subagent : Option String)
  | subAgentThinking (content : String) (subagent : Option String)
  | subAgentToolCall (name : String) (args : Args) (id : Option String) (subagent : Option String)
  | subAgentToolResult (content : MsgContent) (id : String) (subagent : Option String)
  | subAgentEnd (content : MsgContent) (id : String)
  | error (content : String)
deriving DecidableEq, Repr

/-- The mutable state threaded through one call of `process_agent`:
`active_subagents` (task key → sub-agent name; assignment prepends, so
lookup finds the latest binding, matching dictionary update), the
`state["current_subagent"]` slot, and the list of message payloads injected
back into the conversation via `agent.aupdate_state`. -/
structure DemuxState where
  activeSubagents : List (String × String)
  currentSubagent : Option String
  injected : List String
deriving DecidableEq, Repr

/-- The initial state of one `process_agent` call. -/
def initState : DemuxState := ⟨[], none, []⟩

/-- External collaborators used by `process_agent`: whether
`agent.aupdate_state` succeeds (and the exception text when it fails), and
the behaviour of `json.loads` on tool-result strings — `some d` when the
text parses to a JSON object (its `__vlm_image__` truthiness and `content`
key), `none` when parsing fails or yields a non-object. -/
structure Env where
  injectOk : Bool
  injectErr : String
  jsonLoads : String → Option VlmDict

/-- A concrete environment: injection succeeds, strings never parse. -/
def defaultEnv : Env := ⟨true, "", fun _ => none⟩

/-- A concrete environment whose `aupdate_state` fails. -/
def failEnv : Env := ⟨false, "boom", fun _ => none⟩

/-- Scan the namespace for the first segment starting with `"task:"`
(src/chat/chat.py lines 219-225). -/
def findTaskKey : List String → Option String
  | [] => none
  | s :: rest => if s.startsWith "task:" then some s else findTaskKey rest

/-- Namespace classification (src/chat/chat.py lines 213-228): returns
`is_subagent` and the resolved `subagent_name`.  The first `task:` segment
is looked up in `active_subagents`; when absent or unresolved the
`current_subagent` slot is the fallback; a root namespace yields
`(false, none)`. -/
def classify (st : DemuxState) (ns : List String) : Bool × Option String :=
  if ns.isEmpty then (false, none)
  else
    match findTaskKey ns with
    | some key =>
      match st.activeSubagents.lookup key with
      | some nm => (true, some nm)
      | none => (true, st.currentSubagent)
    | none => (true, st.currentSubagent)

/-- Result of a sub-computation of the per-item `try` block: the events
yielded so far, the updated state, and `some e` when an exception with text
`e` was raised (aborting the rest of the item). -/
abbrev PRes := List Event × DemuxState × Option String

/-- `tool_name = tc.get('name') or tc['name']` (src/chat/chat.py line 290):
when the `name` key is present both operands evaluate to its value, so the
result is that value even when it is falsy; when the key is absent the
subscript raises `KeyError`. -/
def getToolName (tc : ToolCallEntry) : Option String := tc.name

/-- Process one entry of `msg.tool_calls` (src/chat/chat.py lines 289-325). -/
def processToolCall (isSub : Bool) (subName : Option String) (st : DemuxState)
    (tc : ToolCallEntry) : PRes :=
  match getToolName tc with
  | none => ([], st, some "KeyError: name")
  | some toolName =>
    if isSub then
      ([.subAgentToolCall toolName (tc.args.getD []) tc.id subName], st, none)
    else if toolName == "task" then
      let taskArgs := tc.args.getD []
      let taskCallId := tc.id.getD ""
      let subagentType := (taskArgs.lookup "subagent_type").getD "general"
      ([.subAgentStart subagentType ((taskArgs.lookup "description").getD "") taskCallId],
       { st with
          activeSubagents := ("task:" ++ taskCallId, subagentType) :: st.activeSubagents,
          currentSubagent := some subagentType },
       none)
    else
      ([.toolCall toolName (tc.args.getD []) tc.id], st, none)

/-- Fold `processToolCall` over a `tool_calls` list, stopping at the first
raised exception (events already yielded are kept). -/
def processToolCalls (isSub : Bool) (subName : Option String) :
    DemuxState → List ToolCallEntry → PRes
  | st, [] => ([], st, none)
  | st, tc :: rest =>
    match processToolCall isSub subName st tc with
    | (evs, st1, some e) => (evs, st1, some e)
    | (evs, st1, none) =>
      match processToolCalls isSub subName st1 rest with
      | (evs2, st2, exn) => (evs ++ evs2, st2, exn)

/-- The `image_content` computation of the `read_image` unwrapping
(src/chat/chat.py lines 361-374): a string content is parsed with
`json.loads` (decode errors pass silently), a dictionary content is
inspected directly; either way the `content` key is taken only when the
`__vlm_image__` key is truthy. -/
def extractImage (env : Env) (content : MsgContent) : Option String :=
  match content with
  | .str s =>
    match env.jsonLoads s with
    | some d => if d.vlmImage then d.content else none
    | none => none
  | .dict d => if d.vlmImage then d.content else none

/-- The `read_image` unwrapping (src/chat/chat.py lines 357-388): extract a
tagged image payload from the result content and feed it back through
`agent.aupdate_state` (`if image_content:` skips falsy payloads); a failing
update is caught and surfaced as a single `error` event. -/
def handleReadImage (env : Env) (st : DemuxState) (content : MsgContent) :
    List Event × DemuxState :=
  match extractImage env content with
  | some c =>
    if c == "" then ([], st)
    else if env.injectOk then ([], { st with injected := st.injected ++ [c] })
    else ([.error ("Failed to inject image message: " ++ env.injectErr)], st)
  | none => ([], st)

/-- Process one message of a node delta (src/chat/chat.py lines 286-388). -/
def processMsg (env : Env) (isSub : Bool) (subName : Option String)
    (st : DemuxState) (m : UpdMsg) : PRes :=
  match m with
  | .request tcs => processToolCalls isSub subName st tcs
  | .toolMessage nm content toolCallId =>
    let toolName := nm.getD ""
    if isSub then
      ([.subAgentToolResult content toolCallId subName], st, none)
    else if toolName == "task" then
      ([.subAgentEnd content toolCallId], { st with currentSubagent := none }, none)
    else if toolName == "read_image" then
      match handleReadImage env st content with
      | (evs, st1) => (Event.toolResult content toolCallId :: evs, st1, none)
    else
      ([.toolResult content toolCallId], st, none)
  | .plain => ([], st, none)

/-- Fold `processMsg` over a node's message list, stopping at the first
raised exception. -/
def processMsgs (env : Env) (isSub : Bool) (subName : Option String) :
    DemuxState → List UpdMsg → PRes
  | st, [] => ([], st, none)
  | st, m :: rest =>
    match processMsg env isSub subName st m with
    | (evs, st1, some e) => (evs, st1, some e)
    | (evs, st1, none) =>
      match processMsgs env isSub subName st1 rest with
      | (evs2, st2, exn) => (evs ++ evs2, st2, exn)

/-- Iterate over the `updates` chunk's `(node_name, node_data)` entries
(src/chat/chat.py lines 279-284); a `None` node delta is skipped. -/
def processNodes (env : Env) (isSub : Bool) (subName : Option String) :
    DemuxState → List (String × Option NodeUpd) → PRes
  | st, [] => ([], st, none)
  | st, (_, none) :: rest => processNodes env isSub subName st rest
  | st, (_, some nd) :: rest =>
    match processMsgs env isSub subName st nd.messages with
    | (evs, st1, some e) => (evs, st1, some e)
    | (evs, st1, none) =>
      match processNodes env isSub subName st1 rest with
      | (evs2, st2, exn) => (evs ++ evs2, st2, exn)

/-- Process one content block (src/chat/chat.py lines 243-271): a `text`
block from the `model` node yields an answer event; a `reasoning` block
yields a thinking event; anything else is dropped. -/
def processBlock (isSub : Bool) (subName : Option String) (nodeName : String)
    (b : ContentBlock) : List Event :=
  if b.type == some "text" && nodeName == "model" then
    if isSub then [.subAgentAnswer (b.text.getD "") subName]
    else [.modelAnswer (b.text.getD "")]
  else if b.type == some "reasoning" then
    if isSub then [.subAgentThinking (b.reasoning.getD "") subName]
    else [.modelThinking (b.reasoning.getD "")]
  else []

/-- Process all content blocks of one token, in order. -/
def processBlocks (isSub : Bool) (subName : Option String) (nodeName : String) :
    List ContentBlock → List Event
  | [] => []
  | b :: rest => processBlock isSub subName nodeName b ++ processBlocks isSub subName nodeName rest

/-- The `messages`-mode branch (src/chat/chat.py lines 230-271): skip when
token or metadata is `None` or the token has no content blocks. -/
def processMessagesMode (isSub : Bool) (subName : Option String) (c : TokenChunk) :
    List Event :=
  match c.token, c.metadata with
  | some tk, some md =>
    if tk.contentBlocks.isEmpty then []
    else processBlocks isSub subName (md.langgraphNode.getD "") tk.contentBlocks
  | _, _ => []

/-- Process one raw stream item (src/chat/chat.py lines 203-395): classify
the namespace, dispatch on the stream mode, and convert an exception raised
inside the item into a trailing `error` event (the inner `except` clause;
its traceback text is elided). -/
def processItem (env : Env) (st : DemuxState) (item : RawItem) :
    List Event × DemuxState :=
  match item.chunk with
  | .messages c =>
    (processMessagesMode (classify st item.ns).1 (classify st item.ns).2 c, st)
  | .updates none => ([], st)
  | .updates (some nodes) =>
    match processNodes env (classify st item.ns).1 (classify st item.ns).2 st nodes with
    | (evs, st1, some e) =>
      (evs ++ [.error ("[process_agent] Inner exception: " ++ e)], st1)
    | (evs, st1, none) => (evs, st1)

/-- Fold `processItem` over the raw stream, threading the state. -/
def processStream (env : Env) : DemuxState → List RawItem → List Event × DemuxState
  | st, [] => ([], st)
  | st, item :: rest =>
    match processItem env st item with
    | (evs, st1) =>
      match processStream env st1 rest with
      | (evs2, st2) => (evs ++ evs2, st2)

/-- The full event sequence `process_agent` yields for one turn's raw
stream, starting from the empty tracker state. -/
def processAgent (env : Env) (items : List RawItem) : List Event :=
  (processStream env initState items).1

/-- The `ChatStream` validation gate and relay (src/chat/chat.py lines
404-448): an empty required field yields a single error event; failed
resource initialisation or agent construction each yield a single error
event; otherwise `process_agent`'s events are relayed.  The relayed
sequence is a parameter because building the agent and serialising events
involve external collaborators. -/
def chatStream (modelName baseUrl apiKey humanMessage : String)
    (initOk buildOk : Bool) (relayed : List Event) : List Event :=
  if modelName == "" || baseUrl == "" || apiKey == "" || humanMessage == "" then
    [.error "Invalid request: missing required fields"]
  else if !initOk then
    [.error "Failed to initialize database"]
  else if !buildOk then
    [.error "Failed to build agent"]
  else relayed

/-! ### Distinguished raw items and scenarios -/

/-- Scenario A of the spec: the root agent calls tool `search` with id 1,
then the root result for id 1 with content `ok` arrives. -/
def scenarioA : List RawItem :=
  [⟨[], .updates (some [("model", some ⟨[.request [⟨some "search", some [], some "1"⟩]]⟩)])⟩,
   ⟨[], .updates (some [("tools", some ⟨[.toolMessage (some "search") (.str "ok") "1"]⟩)])⟩]

/-- Scenario B of the spec: the root result for id 2 (content `x`) arrives
before the root call of tool `search` with id 2. -/
def scenarioB : List RawItem :=
  [⟨[], .updates (some [("tools", some ⟨[.toolMessage (some "search") (.str "x") "2"]⟩)])⟩,
   ⟨[], .updates (some [("model", some ⟨[.request [⟨some "search", some [], some "2"⟩]]⟩)])⟩]

/-- A root update whose tool-call entry has `args` and `id` but no `name`
key — the malformed shape of the error-policy claim. -/
def missingNameCallItem : RawItem :=
  ⟨[], .updates (some [("model", some ⟨[.request [⟨none, some [("query", "x")], some "7"⟩]]⟩)])⟩

/-- A token item under namespace `["foo"]` (no `task:` segment) carrying a
text block from the `model` node. -/
def strayTokenItem : RawItem :=
  ⟨["foo"], .messages ⟨some ⟨[⟨some "text", some "Hi", none⟩]⟩, some ⟨some "model"⟩⟩⟩

/-- A root update in which the root agent calls the reserved delegation
tool `task` with invocation id `tid` and the given arguments. -/
def delegationCallItem (node tid : String) (args : Option Args) : RawItem :=
  ⟨[], .updates (some [(node, some ⟨[.request [⟨some "task", args, some tid⟩]]⟩)])⟩

/-- A root update carrying the `ToolMessage` that answers delegation `tid`. -/
def delegationResultItem (node tid : String) (content : MsgContent) : RawItem :=
  ⟨[], .updates (some [(node, some ⟨[.toolMessage (some "task") content tid]⟩)])⟩

/-- A root update carrying a `read_image` tool result whose content is a
dictionary tagged `__vlm_image__` with image payload `img`. -/
def readImageResultItem (node tid img : String) : RawItem :=
  ⟨[], .updates (some [(node, some ⟨[.toolMessage (some "read_image")
      (.dict ⟨true, some img⟩) tid]⟩)])⟩

/-! ### Event classification and counting -/

/-- The root-level event variants: `model_answer`, `model_thinking`,
`tool_call`, `tool_result`. -/
def Event.isRootLevel : Event → Bool
  | .modelAnswer _ => true
  | .modelThinking _ => true
  | .toolCall _ _ _ => true
  | .toolResult _ _ => true
  | _ => false

/-- The event variants a namespaced item can emit: the four sub-agent
stream events and `error`. -/
def Event.isSubStream : Event → Bool
  | .subAgentAnswer _ _ => true
  | .subAgentThinking _ _ => true
  | .subAgentToolCall _ _ _ _ => true
  | .subAgentToolResult _ _ _ => true
  | .error _ => true
  | _ => false

/-- Whether an event is a `sub_agent_end` carrying invocation id `tid`. -/
def emitsEndFor (tid : String) (e : Event) : Bool :=
  match e with
  | .subAgentEnd _ i => i == tid
  | _ => false

/-- How many `sub_agent_end` events with id `tid` a list holds. -/
def evEndCount (tid : String) : List Event → Nat
  | [] => 0
  | e :: rest => (if emitsEndFor tid e then 1 else 0) + evEndCount tid rest

/-- Whether a message is the delegation result for invocation id `tid`: a
`ToolMessage` whose tool name is `task` and whose `tool_call_id` is `tid`. -/
def isDelegationResultFor (tid : String) (m : UpdMsg) : Bool :=
  match m with
  | .toolMessage nm _ cid => nm.getD "" == "task" && cid == tid
  | _ => false

/-- How many delegation results for `tid` a message list holds. -/
def msgEndCount (tid : String) : List UpdMsg → Nat
  | [] => 0
  | m :: rest => (if isDelegationResultFor tid m then 1 else 0) + msgEndCount tid rest

/-- The messages of one `(node_name, node_data)` entry. -/
def nodeMsgs : String × Option NodeUpd → List UpdMsg
  | (_, some nd) => nd.messages
  | (_, none) => []

/-- All messages of an `updates` chunk's node list, in iteration order. -/
def joinMsgs : List (String × Option NodeUpd) → List UpdMsg
  | [] => []
  | p :: rest => nodeMsgs p ++ joinMsgs rest

/-- All messages a raw item carries (empty for token-mode items). -/
def itemMsgs (it : RawItem) : List UpdMsg :=
  match it.chunk with
  | .updates (some nodes) => joinMsgs nodes
  | _ => []

/-! ### Helper lemmas -/

theorem processStream_cons (env : Env) (st : DemuxState) (it : RawItem)
    (rest : List RawItem) :
    processStream env st (it :: rest)
      = ((processItem env st it).1 ++ (processStream env (processItem env st it).2 rest).1,
         (processStream env (processItem env st it).2 rest).2) := rfl

theorem processStream_append (env : Env) (l1 : List RawItem) :
    ∀ (st : DemuxState) (l2 : List RawItem),
      processStream env st (l1 ++ l2)
        = ((processStream env st l1).1
            ++ (processStream env (processStream env st l1).2 l2).1,
           (processStream env (processStream env st l1).2 l2).2) := by
  induction l1 with
  | nil => intro st l2; simp [processStream]
  | cons it rest ih =>
    intro st l2
    rw [List.cons_append, processStream_cons, processStream_cons, ih]
    simp [List.append_assoc]

theorem evEndCount_append (tid : String) (a b : List Event) :
    evEndCount tid (a ++ b) = evEndCount tid a + evEndCount tid b := by
  induction a with
  | nil => simp [evEndCount]
  | cons e rest ih => simp [evEndCount, ih, Nat.add_assoc]

theorem msgEndCount_append (tid : String) (a b : List UpdMsg) :
    msgEndCount tid (a ++ b) = msgEndCount tid a + msgEndCount tid b := by
  induction a with
  | nil => simp [msgEndCount]
  | cons m rest ih => simp [msgEndCount, ih, Nat.add_assoc]

theorem evEndCount_eq_zero (tid : String) (l : List Event)
    (h : ∀ e ∈ l, emitsEndFor tid e = false) : evEndCount tid l = 0 := by
  induction l with
  | nil => rfl
  | cons e rest ih =>
    have he := h e (List.mem_cons_self e rest)
    simp [evEndCount, he, ih fun x hx => h x (List.mem_cons_of_mem e hx)]

theorem processItem_delegationCall (env : Env) (st : DemuxState)
    (node tid : String) (args : Option Args) :
    processItem env st (delegationCallItem node tid args)
      = ([.subAgentStart (((args.getD []).lookup "subagent_type").getD "general")
            (((args.getD []).lookup "description").getD "") tid],
         { st with
            activeSubagents :=
              ("task:" ++ tid, ((args.getD []).lookup "subagent_type").getD "general")
                :: st.activeSubagents,
            currentSubagent :=
              some (((args.getD []).lookup "subagent_type").getD "general") }) := rfl

theorem processItem_delegationResult (env : Env) (st : DemuxState)
    (node tid : String) (content : MsgContent) :
    processItem env st (delegationResultItem node tid content)
      = ([.subAgentEnd content tid], { st with currentSubagent := none }) := rfl

theorem classify_fst_of_ne (st : DemuxState) (ns : List String) (h : ns ≠ []) :
    (classify st ns).1 = true := by
  unfold classify
  split
  · rename_i hemp
    cases ns with
    | nil => exact absurd rfl h
    | cons s rest => simp [List.isEmpty_cons] at hemp
  · split
    · split <;> rfl
    · rfl

theorem subStream_not_root (e : Event) (h : e.isSubStream = true) :
    e.isRootLevel = false := by
  cases e <;> first | rfl | exact absurd h (by simp [Event.isSubStream])

theorem subStream_not_end (tid : String) (e : Event) (h : e.isSubStream = true) :
    emitsEndFor tid e = false := by
  cases e <;> first | rfl | exact absurd h (by simp [Event.isSubStream])

theorem processToolCall_sub (subName : Option String) (st : DemuxState)
    (tc : ToolCallEntry) :
    ∀ e ∈ (processToolCall true subName st tc).1, e.isSubStream = true := by
  intro e he
  unfold processToolCall at he
  cases htc : getToolName tc with
  | none => rw [htc] at he; simp at he
  | some toolName =>
    rw [htc] at he
    simp at he
    subst he
    rfl

theorem processToolCalls_sub (subName : Option String) (tcs : List ToolCallEntry) :
    ∀ st : DemuxState, ∀ e ∈ (processToolCalls true subName st tcs).1,
      e.isSubStream = true := by
  induction tcs with
  | nil => intro st e he; simp [processToolCalls] at he
  | cons tc rest ih =>
    intro st e he
    rw [processToolCalls] at he
    rcases hpc : processToolCall true subName st tc with ⟨evs, st1, exn⟩
    rw [hpc] at he
    have hevs : ∀ x ∈ evs, Event.isSubStream x = true := by
      intro x hx
      exact processToolCall_sub subName st tc x (by rw [hpc]; exact hx)
    cases exn with
    | some err => exact hevs e he
    | none =>
      have he2 : e ∈ evs ++ (processToolCalls true subName st1 rest).1 := he
      rcases List.mem_append.mp he2 with h1 | h2
      · exact hevs e h1
      · exact ih st1 e h2

theorem processMsg_sub (env : Env) (subName : Option String) (st : DemuxState)
    (m : UpdMsg) :
    ∀ e ∈ (processMsg env true subName st m).1, e.isSubStream = true := by
  intro e he
  cases m with
  | request tcs => exact processToolCalls_sub subName tcs st e he
  | toolMessage nm content cid =>
    simp [processMsg] at he
    subst he
    rfl
  | plain => simp [processMsg] at he

theorem processMsgs_sub (env : Env) (subName : Option String) (msgs : List UpdMsg) :
    ∀ st : DemuxState, ∀ e ∈ (processMsgs env true subName st msgs).1,
      e.isSubStream = true := by
  induction msgs with
  | nil => intro st e he; simp [processMsgs] at he
  | cons m rest ih =>
    intro st e he
    rw [processMsgs] at he
    rcases hpm : processMsg env true subName st m with ⟨evs, st1, exn⟩
    rw [hpm] at he
    have hevs : ∀ x ∈ evs, Event.isSubStream x = true := by
      intro x hx
      exact processMsg_sub env subName st m x (by rw [hpm]; exact hx)
    cases exn with
    | some err => exact hevs e he
    | none =>
      have he2 : e ∈ evs ++ (processMsgs env true subName st1 rest).1 := he
      rcases List.mem_append.mp he2 with h1 | h2
      · exact hevs e h1
      · exact ih st1 e h2

theorem processNodes_sub (env : Env) (subName : Option String)
    (nodes : List (String × Option NodeUpd)) :
    ∀ st : DemuxState, ∀ e ∈ (processNodes env true subName st nodes).1,
      e.isSubStream = true := by
  induction nodes with
  | nil => intro st e he; simp [processNodes] at he
  | cons p rest ih =>
    intro st e he
    rcases p with ⟨nodeName, nd⟩
    cases nd with
    | none => exact ih st e he
    | some nu =>
      rw [processNodes] at he
      rcases hpm : processMsgs env true subName st nu.messages with ⟨evs, st1, exn⟩
      rw [hpm] at he
      have hevs : ∀ x ∈ evs, Event.isSubStream x = true := by
        intro x hx
        exact processMsgs_sub env subName nu.messages st x (by rw [hpm]; exact hx)
      cases exn with
      | some err => exact hevs e he
      | none =>
        have he2 : e ∈ evs ++ (processNodes env true subName st1 rest).1 := he
        rcases List.mem_append.mp he2 with h1 | h2
        · exact hevs e h1
        · exact ih st1 e h2

theorem processBlock_sub (subName : Option String) (nodeName : String)
    (b : ContentBlock) :
    ∀ e ∈ processBlock true subName nodeName b, e.isSubStream = true := by
  intro e he
  unfold processBlock at he
  split at he
  · simp at he; subst he; rfl
  · split at he
    · simp at he; subst he; rfl
    · simp at he

theorem processBlocks_sub (subName : Option String) (nodeName : String)
    (bs : List ContentBlock) :
    ∀ e ∈ processBlocks true subName nodeName bs, e.isSubStream = true := by
  induction bs with
  | nil => intro e he; simp [processBlocks] at he
  | cons b rest ih =>
    intro e he
    rw [processBlocks] at he
    rcases List.mem_append.mp he with h1 | h2
    · exact processBlock_sub subName nodeName b e h1
    · exact ih e h2

theorem processMessagesMode_sub (subName : Option String) (c : TokenChunk) :
    ∀ e ∈ processMessagesMode true subName c, e.isSubStream = true := by
  intro e he
  unfold processMessagesMode at he
  split at he
  · split at he
    · simp at he
    · exact processBlocks_sub subName _ _ e he
  · simp at he

theorem processItem_sub (env : Env) (st : DemuxState) (item : RawItem)
    (h : item.ns ≠ []) :
    ∀ e ∈ (processItem env st item).1, e.isSubStream = true := by
  intro e he
  rcases item with ⟨ns, chunk⟩
  have hc : (classify st ns).1 = true := classify_fst_of_ne st ns h
  cases chunk with
  | messages c =>
    simp only [processItem] at he
    rw [hc] at he
    exact processMessagesMode_sub _ c e he
  | updates nodes =>
    cases nodes with
    | none => simp [processItem] at he
    | some ns2 =>
      simp only [processItem] at he
      rw [hc] at he
      rcases hpn : processNodes env true (classify st ns).2 st ns2
        with ⟨evs, st1, exn⟩
      rw [hpn] at he
      have hevs : ∀ x ∈ evs, Event.isSubStream x = true := by
        intro x hx
        exact processNodes_sub env _ ns2 st x (by rw [hpn]; exact hx)
      cases exn with
      | some err =>
        have he2 : e ∈ evs ++ [Event.error ("[process_agent] Inner exception: " ++ err)] := he
        rcases List.mem_append.mp he2 with h1 | h2
        · exact hevs e h1
        · simp at h2; subst h2; rfl
      | none => exact hevs e he

theorem processToolCall_no_end (tid : String) (isSub : Bool)
    (subName : Option String) (st : DemuxState) (tc : ToolCallEntry) :
    ∀ e ∈ (processToolCall isSub subName st tc).1, emitsEndFor tid e = false := by
  intro e he
  unfold processToolCall at he
  repeat' split at he
  all_goals simp_all [emitsEndFor]

theorem processToolCalls_no_end (tid : String) (isSub : Bool)
    (subName : Option String) (tcs : List ToolCallEntry) :
    ∀ st : DemuxState, ∀ e ∈ (processToolCalls isSub subName st tcs).1,
      emitsEndFor tid e = false := by
  induction tcs with
  | nil => intro st e he; simp [processToolCalls] at he
  | cons tc rest ih =>
    intro st e he
    rw [processToolCalls] at he
    rcases hpc : processToolCall isSub subName st tc with ⟨evs, st1, exn⟩
    rw [hpc] at he
    have hevs : ∀ x ∈ evs, emitsEndFor tid x = false := by
      intro x hx
      exact processToolCall_no_end tid isSub subName st tc x (by rw [hpc]; exact hx)
    cases exn with
    | some err => exact hevs e he
    | none =>
      have he2 : e ∈ evs ++ (processToolCalls isSub subName st1 rest).1 := he
      rcases List.mem_append.mp he2 with h1 | h2
      · exact hevs e h1
      · exact ih st1 e h2

theorem handleReadImage_shape (env : Env) (st : DemuxState) (content : MsgContent) :
    (handleReadImage env st content).1 = []
    ∨ (handleReadImage env st content).1
        = [Event.error ("Failed to inject image message: " ++ env.injectErr)] := by
  unfold handleReadImage
  rcases hx : extractImage env content with _ | c
  · simp
  · by_cases hc : (c == "") = true
    · simp [hc]
    · by_cases hio : env.injectOk = true
      · simp [hc, hio]
      · simp [hc, hio]

theorem handleReadImage_no_end (tid : String) (env : Env) (st : DemuxState)
    (content : MsgContent) :
    ∀ e ∈ (handleReadImage env st content).1, emitsEndFor tid e = false := by
  intro e he
  rcases handleReadImage_shape env st content with hs | hs <;> rw [hs] at he
  · simp at he
  · simp at he; subst he; rfl

theorem processMsg_le (tid : String) (env : Env) (isSub : Bool)
    (subName : Option String) (st : DemuxState) (m : UpdMsg) :
    evEndCount tid (processMsg env isSub subName st m).1
      ≤ (if isDelegationResultFor tid m then 1 else 0) := by
  cases m with
  | request tcs =>
    have h0 : evEndCount tid (processMsg env isSub subName st (.request tcs)).1 = 0 :=
      evEndCount_eq_zero tid _
        (processToolCalls_no_end tid isSub subName tcs st)
    rw [h0]
    exact Nat.zero_le _
  | plain =>
    simp [processMsg, evEndCount, isDelegationResultFor]
  | toolMessage nm content cid =>
    cases isSub with
    | true =>
      have h0 : evEndCount tid (processMsg env true subName st (.toolMessage nm content cid)).1
          = 0 := by
        simp [processMsg, evEndCount, emitsEndFor]
      rw [h0]
      exact Nat.zero_le _
    | false =>
      by_cases ht : (nm.getD "" == "task") = true
      · have heq : (processMsg env false subName st (.toolMessage nm content cid)).1
            = [Event.subAgentEnd content cid] := by
          simp [processMsg, ht]
        rw [heq]
        simp [evEndCount, emitsEndFor, isDelegationResultFor, ht]
      · by_cases hr : (nm.getD "" == "read_image") = true
        · have heq : (processMsg env false subName st (.toolMessage nm content cid)).1
              = Event.toolResult content cid :: (handleReadImage env st content).1 := by
            simp [processMsg, ht, hr]
          rw [heq]
          have h0 : evEndCount tid (handleReadImage env st content).1 = 0 :=
            evEndCount_eq_zero tid _ (handleReadImage_no_end tid env st content)
          simp [evEndCount, emitsEndFor, h0]
        · have heq : (processMsg env false subName st (.toolMessage nm content cid)).1
              = [Event.toolResult content cid] := by
            simp [processMsg, ht, hr]
          rw [heq]
          simp [evEndCount, emitsEndFor]

theorem processMsgs_le (tid : String) (env : Env) (isSub : Bool)
    (subName : Option String) (msgs : List UpdMsg) :
    ∀ st : DemuxState,
      evEndCount tid (processMsgs env isSub subName st msgs).1 ≤ msgEndCount tid msgs := by
  induction msgs with
  | nil => intro st; simp [processMsgs, evEndCount, msgEndCount]
  | cons m rest ih =>
    intro st
    rw [processMsgs]
    rcases hpm : processMsg env isSub subName st m with ⟨evs, st1, exn⟩
    have hle : evEndCount tid evs ≤ (if isDelegationResultFor tid m then 1 else 0) := by
      have := processMsg_le tid env isSub subName st m
      rw [hpm] at this
      exact this
    cases exn with
    | some err =>
      calc evEndCount tid ((evs, st1, some err) : PRes).1
          ≤ (if isDelegationResultFor tid m then 1 else 0) := hle
        _ ≤ msgEndCount tid (m :: rest) := by
            rw [msgEndCount]; exact Nat.le_add_right _ _
    | none =>
      have hstep : (( match ((evs, st1, none) : PRes) with
          | (evs, st1, some e) => (evs, st1, some e)
          | (evs, st1, none) =>
            match processMsgs env isSub subName st1 rest with
            | (evs2, st2, exn) => (evs ++ evs2, st2, exn)) : PRes).1
          = evs ++ (processMsgs env isSub subName st1 rest).1 := rfl
      rw [hstep, evEndCount_append, msgEndCount]
      exact Nat.add_le_add hle (ih st1)

theorem processNodes_le (tid : String) (env : Env) (isSub : Bool)
    (subName : Option String) (nodes : List (String × Option NodeUpd)) :
    ∀ st : DemuxState,
      evEndCount tid (processNodes env isSub subName st nodes).1
        ≤ msgEndCount tid (joinMsgs nodes) := by
  induction nodes with
  | nil => intro st; simp [processNodes, evEndCount, joinMsgs, msgEndCount]
  | cons p rest ih =>
    intro st
    rcases p with ⟨nodeName, nd⟩
    cases nd with
    | none =>
      have heq : joinMsgs ((nodeName, none) :: rest) = joinMsgs rest := by
        simp [joinMsgs, nodeMsgs]
      rw [heq]
      exact ih st
    | some nu =>
      rw [processNodes]
      have hjm : joinMsgs ((nodeName, some nu) :: rest)
          = nu.messages ++ joinMsgs rest := by
        simp [joinMsgs, nodeMsgs]
      rw [hjm, msgEndCount_append]
      rcases hpm : processMsgs env isSub subName st nu.messages with ⟨evs, st1, exn⟩
      have hle : evEndCount tid evs ≤ msgEndCount tid nu.messages := by
        have := processMsgs_le tid env isSub subName nu.messages st
        rw [hpm] at this
        exact this
      cases exn with
      | some err =>
        calc evEndCount tid ((evs, st1, some err) : PRes).1
            ≤ msgEndCount tid nu.messages := hle
          _ ≤ msgEndCount tid nu.messages + msgEndCount tid (joinMsgs rest) :=
              Nat.le_add_right _ _
      | none =>
        have hstep : (( match ((evs, st1, none) : PRes) with
            | (evs, st1, some e) => (evs, st1, some e)
            | (evs, st1, none) =>
              match processNodes env isSub subName st1 rest with
              | (evs2, st2, exn) => (evs ++ evs2, st2, exn)) : PRes).1
            = evs ++ (processNodes env isSub subName st1 rest).1 := rfl
        rw [hstep, evEndCount_append]
        exact Nat.add_le_add hle (ih st1)

theorem processBlock_no_end (tid : String) (isSub : Bool)
    (subName : Option String) (nodeName : String) (b : ContentBlock) :
    ∀ e ∈ processBlock isSub subName nodeName b, emitsEndFor tid e = false := by
  intro e he
  unfold processBlock at he
  split at he
  · cases isSub <;> (simp at he; subst he; rfl)
  · split at he
    · cases isSub <;> (simp at he; subst he; rfl)
    · simp at he

theorem processBlocks_no_end (tid : String) (isSub : Bool)
    (subName : Option String) (nodeName : String) (bs : List ContentBlock) :
    ∀ e ∈ processBlocks isSub subName nodeName bs, emitsEndFor tid e = false := by
  induction bs with
  | nil => intro e he; simp [processBlocks] at he
  | cons b rest ih =>
    intro e he
    rw [processBlocks] at he
    rcases List.mem_append.mp he with h1 | h2
    · exact processBlock_no_end tid isSub subName nodeName b e h1
    · exact ih e h2

theorem processItem_le (tid : String) (env : Env) (st : DemuxState) (it : RawItem) :
    evEndCount tid (processItem env st it).1 ≤ msgEndCount tid (itemMsgs it) := by
  rcases it with ⟨ns, chunk⟩
  cases chunk with
  | messages c =>
    have h0 : evEndCount tid (processItem env st ⟨ns, .messages c⟩).1 = 0 := by
      apply evEndCount_eq_zero
      intro e he
      simp only [processItem] at he
      unfold processMessagesMode at he
      split at he
      · split at he
        · simp at he
        · exact processBlocks_no_end tid _ _ _ _ e he
      · simp at he
    rw [h0]
    exact Nat.zero_le _
  | updates nodes =>
    cases nodes with
    | none => simp [processItem, evEndCount]
    | some ns2 =>
      simp only [processItem]
      have hmsgs : itemMsgs ⟨ns, .updates (some ns2)⟩ = joinMsgs ns2 := rfl
      rw [hmsgs]
      rcases hpn : processNodes env (classify st ns).1 (classify st ns).2 st ns2
        with ⟨evs, st1, exn⟩
      have hle : evEndCount tid evs ≤ msgEndCount tid (joinMsgs ns2) := by
        have := processNodes_le tid env (classify st ns).1 (classify st ns).2 ns2 st
        rw [hpn] at this
        exact this
      cases exn with
      | some err =>
        have hstep : (( match ((evs, st1, some err) : PRes) with
            | (evs, st1, some e) =>
              (evs ++ [Event.error ("[process_agent] Inner exception: " ++ e)], st1)
            | (evs, st1, none) => (evs, st1)) : List Event × DemuxState).1
            = evs ++ [Event.error ("[process_agent] Inner exception: " ++ err)] := rfl
      -- the trailing error event is not a sub_agent_end, so the bound is kept
        rw [hstep, evEndCount_append]
        simp [evEndCount, emitsEndFor]
        exact hle
      | none => exact hle

theorem processItem_sub_end_zero (tid : String) (env : Env) (st : DemuxState)
    (it : RawItem) (h : it.ns ≠ []) :
    evEndCount tid (processItem env st it).1 = 0 := by
  apply evEndCount_eq_zero
  intro e he
  exact subStream_not_end tid e (processItem_sub env st it h e he)

theorem processStream_end_zero (tid : String) (env : Env) (items : List RawItem)
    (h : ∀ it ∈ items, it.ns ≠ [] ∨ msgEndCount tid (itemMsgs it) = 0) :
    ∀ st : DemuxState, evEndCount tid (processStream env st items).1 = 0 := by
  induction items with
  | nil => intro st; rfl
  | cons it rest ih =>
    intro st
    rw [processStream_cons, evEndCount_append]
    have h1 : evEndCount tid (processItem env st it).1 = 0 := by
      rcases h it (List.mem_cons_self it rest) with hns | hz
      · exact processItem_sub_end_zero tid env st it hns
      · have := processItem_le tid env st it
        rw [hz] at this
        exact Nat.le_zero.mp this
    rw [h1, ih (fun x hx => h x (List.mem_cons_of_mem it hx))]

theorem processStream_append_fst (env : Env) (l1 : List RawItem)
    (st : DemuxState) (l2 : List RawItem) :
    (processStream env st (l1 ++ l2)).1
      = (processStream env st l1).1
        ++ (processStream env (processStream env st l1).2 l2).1 := by
  rw [processStream_append]

theorem processStream_cons_fst (env : Env) (st : DemuxState) (it : RawItem)
    (rest : List RawItem) :
    (processStream env st (it :: rest)).1
      = (processItem env st it).1
        ++ (processStream env (processItem env st it).2 rest).1 := rfl

/-- The tracker state right after the delegation call is processed: the
correlation key `task:tid` is registered and the current sub-agent set. -/
def midState (env : Env) (pre : List RawItem) (tid : String) (args : Option Args) :
    DemuxState :=
  { (processStream env initState pre).2 with
      activeSubagents :=
        ("task:" ++ tid, ((args.getD []).lookup "subagent_type").getD "general")
          :: (processStream env initState pre).2.activeSubagents,
      currentSubagent :=
        some (((args.getD []).lookup "subagent_type").getD "general") }

theorem processAgent_delegation_split (env : Env) (pre mid post : List RawItem)
    (node1 node2 tid : String) (args : Option Args) (content : MsgContent) :
    processAgent env
        (pre ++ delegationCallItem node1 tid args
          :: (mid ++ delegationResultItem node2 tid content :: post))
      = (processStream env initState pre).1
        ++ Event.subAgentStart (((args.getD []).lookup "subagent_type").getD "general")
             (((args.getD []).lookup "description").getD "") tid
          :: ((processStream env (midState env pre tid args) mid).1
            ++ Event.subAgentEnd content tid
              :: (processStream env
                   { (processStream env (midState env pre tid args) mid).2 with
                      currentSubagent := none } post).1) := by
  unfold processAgent midState
  rw [processStream_append_fst, processStream_cons_fst, processItem_delegationCall,
      processStream_append_fst, processStream_cons_fst, processItem_delegationResult]
  simp [List.append_assoc]

/-! ### Claim theorems -/

/-- C1 counterexample: on the raw input of Scenario B (the result for id 2
arrives before the call for id 2) the output is not one ToolCall
immediately followed by its ToolResult — `process_agent` has no pending
call/result buffer, so the events come out in arrival order. -/
theorem scenarioB_pairing_not_order_independent :
    ¬ processAgent defaultEnv scenarioB
        = [Event.toolCall "search" [] (some "2"), Event.toolResult (.str "x") "2"] := by
  decide

/-- C1 amended: for the raw input of Scenario B the demultiplexer emits
exactly one ToolCall and one ToolResult for id 2, each at the stream
position of the raw item that carried it: the ToolResult first, then the
ToolCall — pairing is not reordered to call-before-result. -/
theorem scenarioB_emits_in_arrival_order (env : Env) :
    processAgent env scenarioB
      = [Event.toolResult (.str "x") "2", Event.toolCall "search" [] (some "2")] := rfl

/-- C2: when the delegation call item for invocation id `tid` precedes and
the delegation result item follows every namespaced item (the engine's
guarantee), the output is the prefix events, then `SubAgentStart` with id
`tid`, then exactly the events of the namespaced items, then
`SubAgentEnd` with id `tid`, then the suffix events; no other segment
holds a `SubAgentEnd` for `tid`, and the whole output holds exactly one. -/
theorem delegation_framing (env : Env) (pre mid post : List RawItem)
    (node1 node2 tid : String) (args : Option Args) (content : MsgContent)
    (hpre : ∀ it ∈ pre, it.ns = [] ∧ msgEndCount tid (itemMsgs it) = 0)
    (hmid : ∀ it ∈ mid, it.ns ≠ [])
    (hpost : ∀ it ∈ post, it.ns = [] ∧ msgEndCount tid (itemMsgs it) = 0) :
    ∃ (epre epost : List Event) (nm td : String) (stMid : DemuxState),
      processAgent env
          (pre ++ delegationCallItem node1 tid args
            :: (mid ++ delegationResultItem node2 tid content :: post))
        = epre ++ Event.subAgentStart nm td tid
            :: ((processStream env stMid mid).1
              ++ Event.subAgentEnd content tid :: epost)
      ∧ evEndCount tid epre = 0
      ∧ evEndCount tid (processStream env stMid mid).1 = 0
      ∧ evEndCount tid epost = 0
      ∧ evEndCount tid (processAgent env
          (pre ++ delegationCallItem node1 tid args
            :: (mid ++ delegationResultItem node2 tid content :: post))) = 1 := by
  have h1 : evEndCount tid (processStream env initState pre).1 = 0 :=
    processStream_end_zero tid env pre (fun it hit => Or.inr (hpre it hit).2) initState
  have h2 : evEndCount tid (processStream env (midState env pre tid args) mid).1 = 0 :=
    processStream_end_zero tid env mid (fun it hit => Or.inl (hmid it hit)) _
  have h3 : evEndCount tid (processStream env
      { (processStream env (midState env pre tid args) mid).2 with
          currentSubagent := none } post).1 = 0 :=
    processStream_end_zero tid env post (fun it hit => Or.inr (hpost it hit).2) _
  refine ⟨(processStream env initState pre).1,
    (processStream env
      { (processStream env (midState env pre tid args) mid).2 with
          currentSubagent := none } post).1,
    ((args.getD []).lookup "subagent_type").getD "general",
    ((args.getD []).lookup "description").getD "",
    midState env pre tid args,
    processAgent_delegation_split env pre mid post node1 node2 tid args content,
    h1, h2, h3, ?_⟩
  rw [processAgent_delegation_split env pre mid post node1 node2 tid args content,
      evEndCount_append, h1]
  simp [evEndCount, evEndCount_append, h2, h3, emitsEndFor]

/-- C2 witness: a concrete one-delegation turn (Scenario C of the spec). -/
theorem delegation_framing_witness :
    ∃ (epre epost : List Event) (nm td : String) (stMid : DemuxState),
      processAgent defaultEnv
          ([] ++ delegationCallItem "model" "9"
              (some [("subagent_type", "researcher"), ("description", "find X")])
            :: ([⟨["task:9"], .updates (some [("tools",
                  some ⟨[.toolMessage (some "search") (.str "r") "5"]⟩)])⟩]
              ++ delegationResultItem "tools" "9" (.str "done") :: []))
        = epre ++ Event.subAgentStart nm td "9"
            :: ((processStream defaultEnv stMid
                  [⟨["task:9"], .updates (some [("tools",
                    some ⟨[.toolMessage (some "search") (.str "r") "5"]⟩)])⟩]).1
              ++ Event.subAgentEnd (.str "done") "9" :: epost)
      ∧ evEndCount "9" epre = 0
      ∧ evEndCount "9" (processStream defaultEnv stMid
            [⟨["task:9"], .updates (some [("tools",
              some ⟨[.toolMessage (some "search") (.str "r") "5"]⟩)])⟩]).1 = 0
      ∧ evEndCount "9" epost = 0
      ∧ evEndCount "9" (processAgent defaultEnv
          ([] ++ delegationCallItem "model" "9"
              (some [("subagent_type", "researcher"), ("description", "find X")])
            :: ([⟨["task:9"], .updates (some [("tools",
                  some ⟨[.toolMessage (some "search") (.str "r") "5"]⟩)])⟩]
              ++ delegationResultItem "tools" "9" (.str "done") :: []))) = 1 :=
  delegation_framing defaultEnv [] _ [] "model" "tools" "9"
    (some [("subagent_type", "researcher"), ("description", "find X")]) (.str "done")
    (by intro it hit; simp at hit)
    (by intro it hit; simp at hit; subst hit; decide)
    (by intro it hit; simp at hit)

/-- C3 counterexample: a namespaced item with no `task:` segment and no
active sub-agent does not degrade to root attribution — its text block is
emitted as a `sub_agent_answer` with a null sub-agent name, not as a
root-level `model_answer`. -/
theorem stray_namespace_not_root_attributed :
    processAgent defaultEnv [strayTokenItem] = [Event.subAgentAnswer "Hi" none]
    ∧ ¬ processAgent defaultEnv [strayTokenItem] = [Event.modelAnswer "Hi"] := by
  constructor
  · rfl
  · decide

/-- C3 amended: for every item with a non-empty namespace, classification
scans the segments for the first `task:<id>` key and uses the tracked name
when the key resolves; when no segment matches it falls back to the
currently active sub-agent; and when additionally no sub-agent is active
the item stays classified as sub-agent — none of its events is ever a
root-level event, and no exception is raised. -/
theorem namespaced_item_attribution (env : Env) (st : DemuxState) (item : RawItem)
    (h : item.ns ≠ []) :
    (∀ key nm, findTaskKey item.ns = some key →
        st.activeSubagents.lookup key = some nm →
        classify st item.ns = (true, some nm))
    ∧ (findTaskKey item.ns = none →
        classify st item.ns = (true, st.currentSubagent))
    ∧ (∀ e ∈ (processItem env st item).1, Event.isRootLevel e = false) := by
  have hne : item.ns.isEmpty = false := by
    cases hns : item.ns with
    | nil => exact absurd hns h
    | cons s rest => rfl
  refine ⟨?_, ?_, ?_⟩
  · intro key nm hk hl
    unfold classify
    rw [hne]
    simp [hk, hl]
  · intro hk
    unfold classify
    rw [hne]
    simp [hk]
  · intro e he
    exact subStream_not_root e (processItem_sub env st item h e he)

/-- C3 amended, witness at a concrete stray item. -/
theorem namespaced_item_attribution_witness :
    (∀ key nm, findTaskKey strayTokenItem.ns = some key →
        initState.activeSubagents.lookup key = some nm →
        classify initState strayTokenItem.ns = (true, some nm))
    ∧ (findTaskKey strayTokenItem.ns = none →
        classify initState strayTokenItem.ns = (true, initState.currentSubagent))
    ∧ (∀ e ∈ (processItem defaultEnv initState strayTokenItem).1,
        Event.isRootLevel e = false) :=
  namespaced_item_attribution defaultEnv initState strayTokenItem (by decide)

/-- C4: on the in-order raw input of Scenario A the output is exactly
`[ToolCall(name=search, id=1), ToolResult(id=1, content=ok)]`. -/
theorem scenarioA_output (env : Env) :
    processAgent env scenarioA
      = [Event.toolCall "search" [] (some "1"), Event.toolResult (.str "ok") "1"] := rfl

/-- C5: a tool-call entry with no `name` key is not tolerated by a safe
default — `tc.get('name') or tc['name']` raises `KeyError`, which the
per-item handler converts into an `error` event; the stream itself is not
stopped (the next raw item is still processed). -/
theorem missing_tool_name_raises :
    processAgent defaultEnv
        [missingNameCallItem,
         ⟨[], .updates (some [("model",
            some ⟨[.request [⟨some "search", some [], some "8"⟩]]⟩)])⟩]
      = [Event.error "[process_agent] Inner exception: KeyError: name",
         Event.toolCall "search" [] (some "8")] := rfl

/-- C6: a token-mode item whose token or metadata is missing, or whose
token carries no content blocks, produces zero output events (and no
`error` event) and leaves the state unchanged. -/
theorem degenerate_token_item_silent (env : Env) (st : DemuxState)
    (ns : List String) (c : TokenChunk)
    (h : c.token = none ∨ c.metadata = none
        ∨ ∃ tk, c.token = some tk ∧ tk.contentBlocks = []) :
    processItem env st ⟨ns, .messages c⟩ = ([], st) := by
  obtain ⟨tok, md⟩ := c
  have hmm : processMessagesMode (classify st ns).1 (classify st ns).2 ⟨tok, md⟩ = [] := by
    obtain h | h | ⟨tk, htk, hb⟩ := h
    · replace h : tok = none := h
      subst h
      rfl
    · replace h : md = none := h
      subst h
      cases tok <;> rfl
    · replace htk : tok = some tk := htk
      subst htk
      cases md with
      | none => rfl
      | some m => simp [processMessagesMode, hb]
  simp [processItem, hmm]

/-- C6 witness: a token item with a token but no metadata. -/
theorem degenerate_token_item_silent_witness :
    processItem defaultEnv initState
        ⟨[], .messages ⟨some ⟨[⟨some "text", some "Hi", none⟩]⟩, none⟩⟩
      = ([], initState) :=
  degenerate_token_item_silent defaultEnv initState []
    ⟨some ⟨[⟨some "text", some "Hi", none⟩]⟩, none⟩ (Or.inr (Or.inl rfl))

/-- C7: a root-level `read_image` tool result carrying the tagged image
payload is fed back into the conversation through `agent.aupdate_state`
(the `injected` list) when the update succeeds; when the update fails,
exactly one `error` event follows the `tool_result` event and the turn's
output continues with the remaining raw items either way. -/
theorem read_image_feedback (env : Env) (st : DemuxState)
    (node tid img : String) (rest : List RawItem) (h : img ≠ "") :
    (env.injectOk = true →
      processStream env st (readImageResultItem node tid img :: rest)
        = ([Event.toolResult (.dict ⟨true, some img⟩) tid]
            ++ (processStream env { st with injected := st.injected ++ [img] } rest).1,
           (processStream env { st with injected := st.injected ++ [img] } rest).2))
    ∧ (env.injectOk = false →
      processStream env st (readImageResultItem node tid img :: rest)
        = ([Event.toolResult (.dict ⟨true, some img⟩) tid,
            Event.error ("Failed to inject image message: " ++ env.injectErr)]
            ++ (processStream env st rest).1,
           (processStream env st rest).2)) := by
  have hb : (img == "") = false := by
    cases hbe : img == "" with
    | false => rfl
    | true => exact absurd (by simpa using hbe) h
  constructor
  · intro hio
    have hitem : processItem env st (readImageResultItem node tid img)
        = ([Event.toolResult (.dict ⟨true, some img⟩) tid],
           { st with injected := st.injected ++ [img] }) := by
      simp [processItem, readImageResultItem, classify, processNodes, processMsgs,
            processMsg, handleReadImage, extractImage, hb, hio]
    rw [processStream_cons, hitem]
  · intro hio
    have hitem : processItem env st (readImageResultItem node tid img)
        = ([Event.toolResult (.dict ⟨true, some img⟩) tid,
            Event.error ("Failed to inject image message: " ++ env.injectErr)], st) := by
      simp [processItem, readImageResultItem, classify, processNodes, processMsgs,
            processMsg, handleReadImage, extractImage, hb, hio]
    rw [processStream_cons, hitem]

/-- C7 witness: concrete failing environment, then the implications
discharged at concrete inputs. -/
theorem read_image_feedback_witness :
    (failEnv.injectOk = true →
      processStream failEnv initState (readImageResultItem "tools" "5" "IMG" :: [])
        = ([Event.toolResult (.dict ⟨true, some "IMG"⟩) "5"]
            ++ (processStream failEnv
                { initState with injected := initState.injected ++ ["IMG"] } []).1,
           (processStream failEnv
                { initState with injected := initState.injected ++ ["IMG"] } []).2))
    ∧ (failEnv.injectOk = false →
      processStream failEnv initState (readImageResultItem "tools" "5" "IMG" :: [])
        = ([Event.toolResult (.dict ⟨true, some "IMG"⟩) "5",
            Event.error ("Failed to inject image message: " ++ failEnv.injectErr)]
            ++ (processStream failEnv initState []).1,
           (processStream failEnv initState []).2)) :=
  read_image_feedback failEnv initState "tools" "5" "IMG" [] (by decide)

/-- C8: in token mode, a `text` content block whose originating node is
not `model` yields no event, while a `reasoning` block yields a thinking
event regardless of the originating node. -/
theorem block_classification (isSub : Bool) (subName : Option String)
    (nodeName : String) (b : ContentBlock) :
    (b.type = some "text" → nodeName ≠ "model" →
      processBlock isSub subName nodeName b = [])
    ∧ (b.type = some "reasoning" →
      processBlock isSub subName nodeName b
        = if isSub then [Event.subAgentThinking (b.reasoning.getD "") subName]
          else [Event.modelThinking (b.reasoning.getD "")]) := by
  obtain ⟨btype, btext, breas⟩ := b
  constructor
  · intro ht hn
    replace ht : btype = some "text" := ht
    subst ht
    have hb : (nodeName == "model") = false := by
      cases hbe : nodeName == "model" with
      | false => rfl
      | true => exact absurd (by simpa using hbe) hn
    simp [processBlock, hb]
  · intro ht
    replace ht : btype = some "reasoning" := ht
    subst ht
    simp [processBlock]

/-- C9: `ChatStream` with any of the four required fields empty yields the
single error event `Invalid request: missing required fields`, for every
possible downstream behaviour — the agent is neither built nor invoked. -/
theorem chatStream_rejects_missing_fields (modelName baseUrl apiKey humanMessage : String)
    (initOk buildOk : Bool) (relayed : List Event)
    (h : modelName = "" ∨ baseUrl = "" ∨ apiKey = "" ∨ humanMessage = "") :
    chatStream modelName baseUrl apiKey humanMessage initOk buildOk relayed
      = [Event.error "Invalid request: missing required fields"] := by
  obtain h | h | h | h := h <;> simp [chatStream, h]

/-- C9 witness: empty `human_message`, arbitrary other fields. -/
theorem chatStream_rejects_missing_fields_witness :
    chatStream "gpt" "http://x" "key" "" true true []
      = [Event.error "Invalid request: missing required fields"] :=
  chatStream_rejects_missing_fields "gpt" "http://x" "key" "" true true []
    (Or.inr (Or.inr (Or.inr rfl)))

/-- C10: a root delegation call whose arguments carry neither
`subagent_type` nor `description` still emits a `SubAgentStart`, with the
sub-agent name defaulting to `general`, the task defaulting to the empty
string, and the correlation key `task:<id>` registered to `general`. -/
theorem delegation_defaults (env : Env) (st : DemuxState) (node tid : String)
    (args : Option Args)
    (h1 : (args.getD []).lookup "subagent_type" = none)
    (h2 : (args.getD []).lookup "description" = none) :
    processItem env st (delegationCallItem node tid args)
      = ([Event.subAgentStart "general" "" tid],
         { st with
            activeSubagents := ("task:" ++ tid, "general") :: st.activeSubagents,
            currentSubagent := some "general" }) := by
  rw [processItem_delegationCall, h1, h2]
  rfl

/-- C10 witness: delegation call with an empty argument object. -/
theorem delegation_defaults_witness :
    processItem defaultEnv initState (delegationCallItem "model" "7" (some []))
      = ([Event.subAgentStart "general" "" "7"],
         { initState with
            activeSubagents := ("task:" ++ "7", "general") :: initState.activeSubagents,
            currentSubagent := some "general" }) :=
  delegation_defaults defaultEnv initState "model" "7" (some []) rfl rfl

end CaptainCmd
